import Mathlib

/-!
Verification of the chess_rocket repository's core logic against its
natural-language specification.

Two components are embedded, both translated from the Python source:

* the SM-2 spaced-repetition scheduler (`scripts/srs.py`): cards, the
  `_sm2_update` rule, `add_card`, `review_card`, `get_due_cards`,
  `get_stats`, and the corrupted-store recovery of `_load_cards`;
* the tactical motif detector (`scripts/motif_detector.py`): the eight
  boolean predicates and `detect_all_motifs` / `detect_motif`.

Python `float` arithmetic is modelled with `ℚ` (exact decimal arithmetic;
every constant in the source is a short decimal), Python `round(x)` /
`round(x, n)` with round-half-to-even over `ℚ`, timestamps with `ℚ`
numbers of hours, and Python exceptions with explicit error values.
The chess rules library (`python-chess`) is an external collaborator:
its queries (piece placement, attack sets, checkers, pin rays, check /
checkmate status) are modelled as the fields of a `Board` record, and
"the position after the move" is a second `Board` argument standing for
`board.copy(); board.push(move)`.
-/

namespace SRS

/-- Python's built-in `round` to an integer: round half to even
(banker's rounding), as used by `round(...)` in `scripts/srs.py`. -/
def roundHalfEven (q : ℚ) : ℤ :=
  let f := ⌊q⌋
  if q - f < 1/2 then f
  else if 1/2 < q - f then f + 1
  else if f % 2 = 0 then f else f + 1

/-- Python's `round(x, 4)` over our rational model of `float`. -/
def round4 (q : ℚ) : ℚ := (roundHalfEven (q * 10000) : ℚ) / 10000

/-- Python's `round(x, 3)` over our rational model of `float`. -/
def round3 (q : ℚ) : ℚ := (roundHalfEven (q * 1000) : ℚ) / 1000

/-- `_INTERVAL_HOURS = [4, 24, 72, 168, 336, 720]` (srs.py line 22). -/
def _INTERVAL_HOURS : List ℤ := [4, 24, 72, 168, 336, 720]

/-- `_MIN_EASE_FACTOR = 1.3` (srs.py line 24). -/
def _MIN_EASE_FACTOR : ℚ := 13/10

/-- An SRS card (the dict built by `SRSManager.add_card`).  Timestamps
(`created_at`, `next_review`) are rationals counting hours, so Python's
`now + timedelta(hours=h)` becomes `now + h`. -/
structure Card where
  id : String
  fen : String
  player_move : String
  best_move : String
  cp_loss : ℤ
  classification : String
  motif : Option String
  explanation : String
  created_at : ℚ
  next_review : ℚ
  interval_hours : ℤ
  ease_factor : ℚ
  repetitions : ℕ
  quality_history : List ℤ
  deriving DecidableEq

/-- `SRSManager._sm2_update` (srs.py lines 206-250).  `now` is the wall
clock at review time; the caller guarantees `0 ≤ quality ≤ 5`.
Note the interval in the mature branch multiplies by the un-rounded
(post-`max`) ease factor `ef`, exactly as the source does. -/
def sm2_update (now : ℚ) (card : Card) (quality : ℤ) : Card :=
  let ef0 : ℚ :=
    card.ease_factor + (1/10 - (5 - (quality : ℚ)) * (2/25 + (5 - (quality : ℚ)) * (1/50)))
  let ef : ℚ := max _MIN_EASE_FACTOR ef0
  let ir : ℤ × ℕ :=
    if quality < 3 then
      (_INTERVAL_HOURS.getD 0 0, 0)
    else
      let reps := card.repetitions
      let newInterval : ℤ :=
        if reps < _INTERVAL_HOURS.length then _INTERVAL_HOURS.getD reps 0
        else roundHalfEven ((card.interval_hours : ℚ) * ef)
      (newInterval, reps + 1)
  { card with
      quality_history := card.quality_history ++ [quality]
      ease_factor := round4 ef
      interval_hours := ir.1
      repetitions := ir.2
      next_review := now + (ir.1 : ℚ) }

/-- `SRSManager.add_card` (srs.py lines 72-115): the freshly created
card.  The generated UUID is passed in as `newId`. -/
def add_card (now : ℚ) (newId fen player_move best_move : String) (cp_loss : ℤ)
    (classification : String) (motif : Option String) (explanation : String) : Card :=
  { id := newId
    fen := fen
    player_move := player_move
    best_move := best_move
    cp_loss := cp_loss
    classification := classification
    motif := motif
    explanation := explanation
    created_at := now
    next_review := now + (_INTERVAL_HOURS.getD 0 0 : ℚ)
    interval_hours := _INTERVAL_HOURS.getD 0 0
    ease_factor := 5/2
    repetitions := 0
    quality_history := [] }

/-- `SRSManager._find_card` (srs.py lines 189-204): first card whose id
matches, `none` standing for the `ValueError("Card not found")`. -/
def find_card (cards : List Card) (card_id : String) : Option Card :=
  cards.find? (fun c => c.id == card_id)

/-- The two error kinds `review_card` can raise (both `ValueError` in
Python; the spec distinguishes them as `InvalidArgument` / `NotFound`). -/
inductive SrsError where
  | invalidArgument
  | notFound
  deriving DecidableEq

/-- `SRSManager.review_card` (srs.py lines 132-160).  Returns the call's
outcome together with the card collection afterwards: on an exception
the collection `self._cards` is untouched. -/
def review_card (now : ℚ) (cards : List Card) (card_id : String) (quality : ℤ) :
    Except SrsError Card × List Card :=
  if quality < 0 ∨ 5 < quality then
    (.error .invalidArgument, cards)
  else
    match find_card cards card_id with
    | none => (.error .notFound, cards)
    | some card =>
        let updated := sm2_update now card quality
        (.ok updated, cards.map (fun c => if c.id == card_id then updated else c))

/-- `SRSManager.get_due_cards` (srs.py lines 117-130): filter to
`next_review <= now`, then sort ascending by `next_review` (Python's
stable `list.sort`). -/
def get_due_cards (now : ℚ) (cards : List Card) : List Card :=
  (cards.filter (fun c => decide (c.next_review ≤ now))).mergeSort
    (fun a b => decide (a.next_review ≤ b.next_review))

/-- The result of `SRSManager.get_stats` (srs.py lines 162-187);
`by_classification` is the counting dict viewed as a function. -/
structure Stats where
  total : ℕ
  due : ℕ
  avg_ease : ℚ
  by_classification : String → ℕ

/-- `SRSManager.get_stats` (srs.py lines 162-187). -/
def get_stats (now : ℚ) (cards : List Card) : Stats :=
  { total := cards.length
    due := cards.countP (fun c => decide (c.next_review ≤ now))
    avg_ease :=
      if 0 < cards.length then
        round3 ((cards.map (fun c => c.ease_factor)).sum / (cards.length : ℚ))
      else 0
    by_classification := fun cls => cards.countP (fun c => c.classification == cls) }

/-- The state `SRSManager._load_cards` (srs.py lines 41-60) leaves
behind: the in-memory card list, and the content of the `.bak` backup
file when one was written. -/
structure LoadOutcome where
  cards : List Card
  backup : Option String
  deriving DecidableEq

/-- `SRSManager._load_cards` (srs.py lines 41-60).  `file` is the store
file's content (`none` when the file does not exist); `parse` stands for
the external `json.loads` plus the `isinstance(data, list)` check, with
`none` modelling `JSONDecodeError` or the not-a-list `ValueError`.  On a
parse failure the file is copied to the `.bak` backup and the manager
starts with an empty collection. -/
def load_cards (file : Option String) (parse : String → Option (List Card)) : LoadOutcome :=
  match file with
  | none => ⟨[], none⟩
  | some text =>
    match parse text with
    | some cards => ⟨cards, none⟩
    | none => ⟨[], some text⟩

/-- Cards reachable through the public API: created by `add_card`, then
updated by any sequence of successful `review_card` calls (which call
`sm2_update` with a validated quality). -/
inductive Reachable : Card → Prop where
  | add (now : ℚ) (newId fen pm bm : String) (cp : ℤ) (cls : String)
      (mot : Option String) (ex : String) :
      Reachable (add_card now newId fen pm bm cp cls mot ex)
  | review (now : ℚ) (q : ℤ) (c : Card) (h0 : 0 ≤ q) (h5 : q ≤ 5)
      (hc : Reachable c) : Reachable (sm2_update now c q)

/-- Iterated reviews with a fixed quality `q` at times `t 0, t 1, ...`:
`reviewRun t q c n` is the card after `n` successful reviews. -/
def reviewRun (t : ℕ → ℚ) (q : ℤ) (c : Card) : ℕ → Card
  | 0 => c
  | n + 1 => sm2_update (t n) (reviewRun t q c n) q

end SRS

namespace Motif

/-- Chess side colour. -/
inductive Color where
  | white
  | black
  deriving DecidableEq

/-- `not attacker_color` in python-chess. -/
def Color.other : Color → Color
  | .white => .black
  | .black => .white

/-- The six piece types of python-chess. -/
inductive PieceType where
  | pawn
  | knight
  | bishop
  | rook
  | queen
  | king
  deriving DecidableEq

/-- A coloured piece, as returned by `board.piece_at`. -/
structure Piece where
  pieceType : PieceType
  color : Color
  deriving DecidableEq

/-- `_PIECE_VALUES` / `_piece_value` (motif_detector.py lines 14-26). -/
def pieceValue : PieceType → ℕ
  | .pawn => 1
  | .knight => 3
  | .bishop => 3
  | .rook => 5
  | .queen => 9
  | .king => 100

/-- `chess.square_rank sq = sq >> 3`; squares are `0..63`. -/
def squareRank (sq : ℕ) : ℕ := sq / 8

/-- `chess.square_file sq = sq & 7`. -/
def squareFile (sq : ℕ) : ℕ := sq % 8

/-- `chess.square(file, rank) = rank * 8 + file`. -/
def mkSquare (file rank : ℕ) : ℕ := rank * 8 + file

/-- A move `(from_square, to_square, promotion)`. -/
structure Move where
  fromSq : ℕ
  toSq : ℕ
  promotion : Option PieceType
  deriving DecidableEq

/-- The queries the detector makes of a python-chess `Board`.  The rules
library itself is an external collaborator (out of the spec's scope);
this record carries exactly the facts the detector reads off a position:
piece placement, side to move, king squares, check and checkmate status,
the checker squares, per-square attack sets, and pin information.
Attack sets and pin masks (python-chess `SquareSet` bitboards) are lists
of squares; the detector only counts over them or tests membership. -/
structure Board where
  pieceAt : ℕ → Option Piece
  turn : Color
  kingSq : Color → Option ℕ
  isCheck : Bool
  isCheckmate : Bool
  checkers : List ℕ
  attacks : ℕ → List ℕ
  isPinned : Color → ℕ → Bool
  pinMask : Color → ℕ → List ℕ

/-- Sliding pieces (`chess.BISHOP, chess.ROOK, chess.QUEEN`). -/
def isSlider : PieceType → Bool
  | .bishop => true
  | .rook => true
  | .queen => true
  | _ => false

/-- `_detect_fork` (motif_detector.py lines 29-55), over the position
after the move. -/
def detectFork (bAfter : Board) (m : Move) : Bool :=
  match bAfter.pieceAt m.toSq with
  | none => false
  | some moved =>
    let enemy := moved.color.other
    let attackedValuable := (bAfter.attacks m.toSq).countP (fun sq =>
      match bAfter.pieceAt sq with
      | some victim => victim.color == enemy && decide (3 ≤ pieceValue victim.pieceType)
      | none => false)
    decide (2 ≤ attackedValuable)

/-- `_detect_pin` (motif_detector.py lines 58-94), over the position
after the move. -/
def detectPin (bAfter : Board) (m : Move) : Bool :=
  match bAfter.pieceAt m.toSq with
  | none => false
  | some moved =>
    if isSlider moved.pieceType then
      let enemy := moved.color.other
      (List.range 64).any (fun sq =>
        match bAfter.pieceAt sq with
        | none => false
        | some piece =>
          piece.color == enemy &&
          piece.pieceType != PieceType.king && piece.pieceType != PieceType.queen &&
          bAfter.isPinned enemy sq &&
          (bAfter.pinMask enemy sq).contains m.toSq)
    else false

/-- Rook ray directions `_ROOK_DIRECTIONS` (motif_detector.py line 136). -/
def rookDirections : List (ℤ × ℤ) := [(1, 0), (-1, 0), (0, 1), (0, -1)]

/-- Bishop ray directions `_BISHOP_DIRECTIONS` (motif_detector.py line 137). -/
def bishopDirections : List (ℤ × ℤ) := [(1, 1), (1, -1), (-1, 1), (-1, -1)]

/-- The while-loop of `_scan_ray` (motif_detector.py lines 140-167),
with fuel bounding the at most eight in-board steps along a ray. -/
def scanRayAux (b : Board) (target : Color) (dRank dFile : ℤ) :
    ℕ → ℤ → ℤ → List (ℕ × PieceType)
  | 0, _, _ => []
  | fuel + 1, rank, file =>
    if 0 ≤ rank ∧ rank ≤ 7 ∧ 0 ≤ file ∧ file ≤ 7 then
      let sq := mkSquare file.toNat rank.toNat
      match b.pieceAt sq with
      | some piece =>
        if piece.color == target then
          (sq, piece.pieceType) :: scanRayAux b target dRank dFile fuel (rank + dRank) (file + dFile)
        else []
      | none => scanRayAux b target dRank dFile fuel (rank + dRank) (file + dFile)
    else []

/-- `_scan_ray` (motif_detector.py lines 140-167): pieces of
`target_color` along the ray from `fromSq`, stopping at the first
friendly piece or the board edge (enemy pieces do not stop the scan). -/
def scanRay (b : Board) (fromSq : ℕ) (dRank dFile : ℤ) (target : Color) :
    List (ℕ × PieceType) :=
  scanRayAux b target dRank dFile 8
    ((squareRank fromSq : ℤ) + dRank) ((squareFile fromSq : ℤ) + dFile)

/-- `_detect_skewer` (motif_detector.py lines 97-132), over the position
after the move. -/
def detectSkewer (bAfter : Board) (m : Move) : Bool :=
  match bAfter.pieceAt m.toSq with
  | none => false
  | some moved =>
    if isSlider moved.pieceType then
      let enemy := moved.color.other
      let rayDirections :=
        (if moved.pieceType == PieceType.rook || moved.pieceType == PieceType.queen then
          rookDirections else []) ++
        (if moved.pieceType == PieceType.bishop || moved.pieceType == PieceType.queen then
          bishopDirections else [])
      rayDirections.any (fun d =>
        match scanRay bAfter m.toSq d.1 d.2 enemy with
        | front :: back :: _ => decide (pieceValue back.2 < pieceValue front.2)
        | _ => false)
    else false

/-- `_detect_back_rank_mate` (motif_detector.py lines 170-218), over the
position after the move. -/
def detectBackRankMate (bAfter : Board) : Bool :=
  if !bAfter.isCheckmate then false
  else
    let matedColor := bAfter.turn
    match bAfter.kingSq matedColor with
    | none => false
    | some kingSq =>
      let kingRank := squareRank kingSq
      if matedColor == Color.white && kingRank != 0 then false
      else if matedColor == Color.black && kingRank != 7 then false
      else if !bAfter.checkers.any (fun sq => squareRank sq == kingRank) then false
      else
        let escapeRank := if matedColor == Color.white then 1 else 6
        let kingFile := squareFile kingSq
        (List.range' (kingFile - 1) (min 8 (kingFile + 2) - (kingFile - 1))).any (fun f =>
          match bAfter.pieceAt (mkSquare f escapeRank) with
          | some piece => piece.color == matedColor && piece.pieceType == PieceType.pawn
          | none => false)

/-- `_detect_discovered_attack` (motif_detector.py lines 221-266): some
other friendly sliding piece's attack set after the move minus its
attack set before is non-empty and contains a square holding an enemy
piece of value at least 3. -/
def detectDiscoveredAttack (b bAfter : Board) (m : Move) : Bool :=
  match b.pieceAt m.fromSq with
  | none => false
  | some movingPiece =>
    let attackerColor := movingPiece.color
    let enemy := attackerColor.other
    (List.range 64).any (fun sq =>
      match bAfter.pieceAt sq with
      | none => false
      | some piece =>
        piece.color == attackerColor &&
        sq != m.toSq &&
        isSlider piece.pieceType &&
        (let newAttacks := (bAfter.attacks sq).filter (fun a => !(b.attacks sq).contains a)
         !newAttacks.isEmpty &&
         newAttacks.any (fun attackedSq =>
           match bAfter.pieceAt attackedSq with
           | some victim => victim.color == enemy && decide (3 ≤ pieceValue victim.pieceType)
           | none => false)))

/-- `_detect_double_check` (motif_detector.py lines 269-277). -/
def detectDoubleCheck (bAfter : Board) : Bool :=
  bAfter.isCheck && decide (2 ≤ bAfter.checkers.length)

/-- `_detect_promotion` (motif_detector.py lines 280-282). -/
def detectPromotion (m : Move) : Bool :=
  m.promotion.isSome

/-- `_detect_checkmate` (motif_detector.py lines 285-289). -/
def detectCheckmate (bAfter : Board) : Bool :=
  bAfter.isCheckmate

/-- `detect_all_motifs` (motif_detector.py lines 292-329).  `b` is the
position before the move, `bAfter` the result of pushing the move. -/
def detectAllMotifs (b bAfter : Board) (m : Move) : List String :=
  (if detectCheckmate bAfter then
    (if detectBackRankMate bAfter then ["back_rank_mate"] else ["checkmate"])
  else []) ++
  (if detectDoubleCheck bAfter then ["double_check"] else []) ++
  (if detectDiscoveredAttack b bAfter m then ["discovered_attack"] else []) ++
  (if detectFork bAfter m then ["fork"] else []) ++
  (if detectPin bAfter m then ["pin"] else []) ++
  (if detectSkewer bAfter m then ["skewer"] else []) ++
  (if detectPromotion m then ["promotion"] else [])

/-- `detect_motif` (motif_detector.py lines 332-343). -/
def detectMotif (b bAfter : Board) (m : Move) : Option String :=
  (detectAllMotifs b bAfter m).head?

end Motif

namespace Motif

/-- The mated side's back rank as worded by the spec: rank 1 (index 0)
for a mated White king, rank 8 (index 7) for a mated Black king. -/
def backRankOf : Color → ℕ
  | .white => 0
  | .black => 7

/-- The escape rank as worded by the spec: the rank immediately in
front of the king (towards the centre). -/
def escapeRankOf : Color → ℕ → ℕ
  | .white, kingRank => kingRank + 1
  | .black, kingRank => kingRank - 1

/-- Spec-side back-rank-mate condition for a checkmating move, stated
from the spec's words: (a) the mated king sits on its own back rank,
(b) at least one checking piece lies on that same rank, and (c) one of
the mated side's own pawns occupies the escape rank within one file of
the king's file. -/
def BackRankSpec (bAfter : Board) : Prop :=
  ∃ k, bAfter.kingSq bAfter.turn = some k ∧
    squareRank k = backRankOf bAfter.turn ∧
    (∃ c ∈ bAfter.checkers, squareRank c = squareRank k) ∧
    (∃ f, f ≤ 7 ∧ squareFile k ≤ f + 1 ∧ f ≤ squareFile k + 1 ∧
      bAfter.pieceAt (mkSquare f (escapeRankOf bAfter.turn (squareRank k))) =
        some ⟨PieceType.pawn, bAfter.turn⟩)

/-- Spec-side discovered-attack condition, stated from the spec's words:
some friendly sliding piece other than the moved one has an attack set
after the move that gains at least one square not attacked before
(attack-set-after minus attack-set-before non-empty), and at least one
newly attacked square holds an enemy piece of value at least 3. -/
def DiscoveredAttackSpec (b bAfter : Board) (m : Move) (attacker : Color) : Prop :=
  ∃ sq, sq < 64 ∧ sq ≠ m.toSq ∧
    (∃ p, bAfter.pieceAt sq = some p ∧ p.color = attacker ∧ isSlider p.pieceType = true) ∧
    ∃ a, a ∈ bAfter.attacks sq ∧ a ∉ b.attacks sq ∧
      ∃ v, bAfter.pieceAt a = some v ∧ v.color = attacker.other ∧ 3 ≤ pieceValue v.pieceType

/-- Concrete after-move position used as a witness input: Black king on
g8 mated by a White rook that arrived on a8, with Black pawns on f7,
g7, h7 shutting the escape squares. -/
def mateBoard : Board :=
  { pieceAt := fun sq =>
      if sq = 62 then some ⟨.king, .black⟩
      else if sq = 56 then some ⟨.rook, .white⟩
      else if sq = 53 ∨ sq = 54 ∨ sq = 55 then some ⟨.pawn, .black⟩
      else if sq = 4 then some ⟨.king, .white⟩
      else none
    turn := .black
    kingSq := fun c => match c with | .black => some 62 | .white => some 4
    isCheck := true
    isCheckmate := true
    checkers := [56]
    attacks := fun sq => if sq = 56 then [57, 58, 59, 60, 61, 62, 48] else []
    isPinned := fun _ _ => false
    pinMask := fun _ _ => [] }

/-- The move delivering the mate in `mateBoard`: rook a1 to a8. -/
def mateMove : Move := ⟨0, 56, none⟩

/-- Witness before-position for the discovered-attack claim: White rook
on a1 with its first-rank ray blocked at e1 by the White bishop that is
about to move away; Black rook on h1. -/
def discBefore : Board :=
  { pieceAt := fun sq =>
      if sq = 0 then some ⟨.rook, .white⟩
      else if sq = 4 then some ⟨.bishop, .white⟩
      else if sq = 7 then some ⟨.rook, .black⟩
      else if sq = 60 then some ⟨.king, .black⟩
      else if sq = 8 then some ⟨.king, .white⟩
      else none
    turn := .white
    kingSq := fun c => match c with | .black => some 60 | .white => some 8
    isCheck := false
    isCheckmate := false
    checkers := []
    attacks := fun sq => if sq = 0 then [1, 2, 3, 4, 8] else []
    isPinned := fun _ _ => false
    pinMask := fun _ _ => [] }

/-- Witness after-position: the bishop has gone from e1 to c3, and the
rook on a1 now also attacks f1, g1 and the Black rook on h1. -/
def discAfter : Board :=
  { pieceAt := fun sq =>
      if sq = 0 then some ⟨.rook, .white⟩
      else if sq = 18 then some ⟨.bishop, .white⟩
      else if sq = 7 then some ⟨.rook, .black⟩
      else if sq = 60 then some ⟨.king, .black⟩
      else if sq = 8 then some ⟨.king, .white⟩
      else none
    turn := .black
    kingSq := fun c => match c with | .black => some 60 | .white => some 8
    isCheck := false
    isCheckmate := false
    checkers := []
    attacks := fun sq => if sq = 0 then [1, 2, 3, 4, 5, 6, 7, 8] else []
    isPinned := fun _ _ => false
    pinMask := fun _ _ => [] }

/-- The bishop move e1-c3 vacating the a1-rook's first-rank ray. -/
def discMove : Move := ⟨4, 18, none⟩

end Motif

namespace SRS

/-- A concrete freshly added card, used as a witness input. -/
def fresh0 : Card := add_card 0 "card-0" "fen0" "Nf3" "d4" 30 "mistake" none ""

/-- The SM-2 review update exactly as the spec words it, as a predicate
on the updated card `u` produced from `c` by a review of quality `q` at
time `now`: the new ease factor is `max(1.3, ef + (0.1 - (5-q) * (0.08 +
(5-q) * 0.02)))` rounded to 4 decimals (applied pass or fail); a failing
review (`q < 3`) resets the interval to 4 hours and the repetitions to
0; a passing review takes the fixed ladder entry indexed by the
repetitions count before the review while that count is below 6 and
`round(old interval * new ease factor)` afterwards, and increments the
repetitions; the next review is `now` plus the new interval; the quality
is appended to the history. -/
def Sm2SpecClaim (now : ℚ) (c : Card) (q : ℤ) (u : Card) : Prop :=
  u.ease_factor = round4 (max (13/10)
      (c.ease_factor + (1/10 - (5 - (q : ℚ)) * (2/25 + (5 - (q : ℚ)) * (1/50))))) ∧
  (q < 3 → u.interval_hours = 4 ∧ u.repetitions = 0) ∧
  (3 ≤ q →
    (c.repetitions < 6 → u.interval_hours = _INTERVAL_HOURS.getD c.repetitions 0) ∧
    (6 ≤ c.repetitions →
      u.interval_hours = roundHalfEven ((c.interval_hours : ℚ) * u.ease_factor)) ∧
    u.repetitions = c.repetitions + 1) ∧
  u.next_review = now + (u.interval_hours : ℚ) ∧
  u.quality_history = c.quality_history ++ [q]

end SRS

namespace SRS

theorem roundHalfEven_intCast (z : ℤ) : roundHalfEven (z : ℚ) = z := by
  unfold roundHalfEven
  rw [Int.floor_intCast]
  norm_num

theorem floor_le_roundHalfEven (q : ℚ) : ⌊q⌋ ≤ roundHalfEven q := by
  unfold roundHalfEven
  simp only []
  split_ifs <;> omega

theorem round4_int_div (z : ℤ) : round4 ((z : ℚ) / 10000) = (z : ℚ) / 10000 := by
  unfold round4
  rw [div_mul_cancel₀ _ (by norm_num : (10000 : ℚ) ≠ 0), roundHalfEven_intCast]

theorem round4_ge_of_le {q : ℚ} (h : 13/10 ≤ q) : 13/10 ≤ round4 q := by
  unfold round4
  have h1 : (13000 : ℤ) ≤ ⌊q * 10000⌋ := by
    rw [Int.le_floor]
    push_cast
    nlinarith
  have h2 : (13000 : ℤ) ≤ roundHalfEven (q * 10000) :=
    le_trans h1 (floor_le_roundHalfEven _)
  have h3 : (13000 : ℚ) ≤ (roundHalfEven (q * 10000) : ℚ) := by exact_mod_cast h2
  linarith

/-- Every reachable ease factor is an integer multiple of `1/10000`
(Python's `round(ef, 4)` keeps at most four decimals). -/
theorem reachable_ease_denom {c : Card} (hc : Reachable c) :
    ∃ z : ℤ, c.ease_factor = (z : ℚ) / 10000 := by
  induction hc with
  | add now newId fen pm bm cp cls mot ex =>
      exact ⟨25000, by norm_num [add_card]⟩
  | review now q c h0 h5 hc ih =>
      exact ⟨roundHalfEven ((max _MIN_EASE_FACTOR
        (c.ease_factor + (1/10 - (5 - (q : ℚ)) * (2/25 + (5 - (q : ℚ)) * (1/50))))) * 10000), rfl⟩

/-- Invariant from the spec: `ease_factor >= 1.3` for every reachable card. -/
theorem reachable_ease_ge {c : Card} (hc : Reachable c) : 13/10 ≤ c.ease_factor := by
  induction hc with
  | add now newId fen pm bm cp cls mot ex =>
      norm_num [add_card]
  | review now q c h0 h5 hc ih =>
      exact round4_ge_of_le (le_max_left _ _)

theorem mature_interval_ge {prev : ℤ} {ef : ℚ} (hprev : 4 ≤ prev) (hef : 13/10 ≤ ef) :
    5 ≤ roundHalfEven ((prev : ℚ) * ef) := by
  have h1 : (26/5 : ℚ) ≤ (prev : ℚ) * ef := by
    have hprev' : (4 : ℚ) ≤ (prev : ℚ) := by exact_mod_cast hprev
    nlinarith
  have h2 : (5 : ℤ) ≤ ⌊(prev : ℚ) * ef⌋ := by
    rw [Int.le_floor]
    push_cast
    linarith
  exact le_trans h2 (floor_le_roundHalfEven _)

/-- Invariant: `interval_hours >= 4` for every reachable card. -/
theorem reachable_interval_ge {c : Card} (hc : Reachable c) : 4 ≤ c.interval_hours := by
  induction hc with
  | add now newId fen pm bm cp cls mot ex =>
      norm_num [add_card, _INTERVAL_HOURS]
  | review now q c h0 h5 hc ih =>
      show 4 ≤ (if q < 3 then _ else _ : ℤ × ℕ).1
      split_ifs with hq
      · norm_num [_INTERVAL_HOURS]
      · show 4 ≤ (if c.repetitions < _INTERVAL_HOURS.length then _ else _)
        split_ifs with hreps
        · have h6 : c.repetitions < 6 := by simpa [_INTERVAL_HOURS] using hreps
          set n := c.repetitions with hn
          interval_cases n <;> norm_num [_INTERVAL_HOURS]
        · exact le_trans (by norm_num) (mature_interval_ge ih (le_max_left _ _))

end SRS

namespace SRS

theorem round4_max_of_denom {e : ℚ} (hz : ∃ z : ℤ, e = (z : ℚ) / 10000) (q : ℤ) :
    round4 (max (13/10) (e + (1/10 - (5 - (q : ℚ)) * (2/25 + (5 - (q : ℚ)) * (1/50)))))
      = max (13/10) (e + (1/10 - (5 - (q : ℚ)) * (2/25 + (5 - (q : ℚ)) * (1/50)))) := by
  obtain ⟨z, rfl⟩ := hz
  have hdelta : (1/10 - (5 - (q : ℚ)) * (2/25 + (5 - (q : ℚ)) * (1/50)))
      = ((1000 - 800 * (5 - q) - 200 * (5 - q) ^ 2 : ℤ) : ℚ) / 10000 := by
    push_cast
    ring
  rw [hdelta, div_add_div_same, ← Int.cast_add]
  have h13 : (13/10 : ℚ) = ((13000 : ℤ) : ℚ) / 10000 := by norm_num
  rw [h13]
  set w : ℤ := z + (1000 - 800 * (5 - q) - 200 * (5 - q) ^ 2) with hw
  have hmax : max (((13000 : ℤ) : ℚ) / 10000) (((w : ℤ) : ℚ) / 10000)
      = ((max 13000 w : ℤ) : ℚ) / 10000 := by
    rcases le_total (13000 : ℤ) w with h | h
    · rw [max_eq_right h, max_eq_right]
      apply div_le_div_of_nonneg_right ?_ (by norm_num)
      exact_mod_cast h
    · rw [max_eq_left h, max_eq_left]
      apply div_le_div_of_nonneg_right ?_ (by norm_num)
      exact_mod_cast h
  rw [hmax, round4_int_div]

end SRS

namespace SRS

theorem sm2_ease_zero (now : ℚ) (c : Card) :
    (sm2_update now c 0).ease_factor = round4 (max (13/10) (c.ease_factor - 4/5)) := by
  show round4 (max _MIN_EASE_FACTOR _) = _
  norm_num [_MIN_EASE_FACTOR, sub_eq_add_neg]

theorem round4_of_25 : round4 (5/2) = 5/2 := by
  have h : (5/2 : ℚ) = ((25000 : ℤ) : ℚ) / 10000 := by norm_num
  rw [h, round4_int_div]

theorem round4_of_17 : round4 (17/10) = 17/10 := by
  have h : (17/10 : ℚ) = ((17000 : ℤ) : ℚ) / 10000 := by norm_num
  rw [h, round4_int_div]

theorem round4_of_13 : round4 (13/10) = 13/10 := by
  have h : (13/10 : ℚ) = ((13000 : ℤ) : ℚ) / 10000 := by norm_num
  rw [h, round4_int_div]

theorem sm2_zero_of_25 (now : ℚ) (c : Card) (h : c.ease_factor = 5/2) :
    (sm2_update now c 0).ease_factor = 17/10 := by
  rw [sm2_ease_zero, h]
  have h1 : (5/2 : ℚ) - 4/5 = 17/10 := by norm_num
  rw [h1, max_eq_right (by norm_num : (13/10 : ℚ) ≤ 17/10), round4_of_17]

theorem sm2_zero_of_17 (now : ℚ) (c : Card) (h : c.ease_factor = 17/10) :
    (sm2_update now c 0).ease_factor = 13/10 := by
  rw [sm2_ease_zero, h]
  have h1 : (17/10 : ℚ) - 4/5 = 9/10 := by norm_num
  rw [h1, max_eq_left (by norm_num : (9/10 : ℚ) ≤ 13/10), round4_of_13]

theorem sm2_zero_fix (now : ℚ) (c : Card) (h : c.ease_factor = 13/10) :
    (sm2_update now c 0).ease_factor = 13/10 := by
  rw [sm2_ease_zero, h]
  have h1 : (13/10 : ℚ) - 4/5 = 1/2 := by norm_num
  rw [h1, max_eq_left (by norm_num : (1/2 : ℚ) ≤ 13/10), round4_of_13]

theorem zeroRun_ease_from_two (t : ℕ → ℚ) (c : Card) (h : c.ease_factor = 5/2) :
    ∀ n, 2 ≤ n → (reviewRun t 0 c n).ease_factor = 13/10 := by
  intro n hn
  induction n, hn using Nat.le_induction with
  | base =>
      show (sm2_update (t 1) (sm2_update (t 0) c 0) 0).ease_factor = 13/10
      exact sm2_zero_of_17 _ _ (sm2_zero_of_25 _ _ h)
  | succ n hn ih =>
      exact sm2_zero_fix _ _ ih

end SRS

namespace SRS

theorem sm2_fail_reset (now : ℚ) (d : Card) (q : ℤ) (hq : q < 3) :
    (sm2_update now d q).interval_hours = 4 ∧ (sm2_update now d q).repetitions = 0 := by
  simp [sm2_update, hq, _INTERVAL_HOURS]

/-- C2: for every reachable card and quality in `[0, 5]`, `review_card`
updates the card by the exact SM-2 rule the spec states (ease update
applied pass or fail; fail resets interval and repetitions; pass takes
the ladder entry indexed by the pre-review repetitions below 6, else
`round(old interval * new ease factor)`, and increments repetitions;
`next_review = now + interval`; quality appended to the history). -/
theorem sm2_update_exact (now : ℚ) (c : Card) (q : ℤ) (hc : Reachable c)
    (h0 : 0 ≤ q) (h5 : q ≤ 5) :
    Sm2SpecClaim now c q (sm2_update now c q) := by
  obtain ⟨z, hz⟩ := reachable_ease_denom hc
  refine ⟨rfl, fun hq => sm2_fail_reset now c q hq, fun hq3 => ⟨?_, ?_, ?_⟩, rfl, rfl⟩
  · intro hr
    have hq' : ¬ q < 3 := by omega
    simp [sm2_update, hq', _INTERVAL_HOURS]
    omega
  · intro hr6
    have hq' : ¬ q < 3 := by omega
    have hr' : ¬ c.repetitions < _INTERVAL_HOURS.length := by
      simp only [_INTERVAL_HOURS, List.length]
      omega
    have hstable := round4_max_of_denom ⟨z, hz⟩ q
    simp only [sm2_update, hq', if_false, hr', _MIN_EASE_FACTOR]
    rw [hstable]
  · have hq' : ¬ q < 3 := by omega
    simp [sm2_update, hq']

end SRS

namespace SRS

theorem sm2_ease_four (now : ℚ) (c : Card) :
    (sm2_update now c 4).ease_factor = round4 (max (13/10) c.ease_factor) := by
  show round4 (max _MIN_EASE_FACTOR _) = _
  norm_num [_MIN_EASE_FACTOR]

theorem sm2_four_25 (now : ℚ) (c : Card) (h : c.ease_factor = 5/2) :
    (sm2_update now c 4).ease_factor = 5/2 := by
  rw [sm2_ease_four, h, max_eq_right (by norm_num : (13/10 : ℚ) ≤ 5/2), round4_of_25]

theorem sm2_four_reps (now : ℚ) (c : Card) :
    (sm2_update now c 4).repetitions = c.repetitions + 1 := by
  simp [sm2_update, (by norm_num : ¬ (4 : ℤ) < 3)]

theorem sm2_four_young (now : ℚ) (c : Card) (h : c.repetitions < 6) :
    (sm2_update now c 4).interval_hours = _INTERVAL_HOURS.getD c.repetitions 0 := by
  have h' : c.repetitions < _INTERVAL_HOURS.length := by
    simpa [_INTERVAL_HOURS] using h
  simp [sm2_update, (by norm_num : ¬ (4 : ℤ) < 3), h']

theorem sm2_four_mature (now : ℚ) (c : Card) (h : 6 ≤ c.repetitions) :
    (sm2_update now c 4).interval_hours
      = roundHalfEven ((c.interval_hours : ℚ)
          * max (13/10) (c.ease_factor
              + (1/10 - (5 - ((4 : ℤ) : ℚ)) * (2/25 + (5 - ((4 : ℤ) : ℚ)) * (1/50))))) := by
  have h' : ¬ c.repetitions < _INTERVAL_HOURS.length := by
    simp only [_INTERVAL_HOURS, List.length]
    omega
  simp [sm2_update, (by norm_num : ¬ (4 : ℤ) < 3), h', _MIN_EASE_FACTOR]

theorem q4_run_facts (t : ℕ → ℚ) (c : Card) (h : c.ease_factor = 5/2)
    (hr : c.repetitions = 0) :
    ∀ n, (reviewRun t 4 c n).ease_factor = 5/2 ∧ (reviewRun t 4 c n).repetitions = n := by
  intro n
  induction n with
  | zero => exact ⟨h, hr⟩
  | succ n ih =>
      refine ⟨sm2_four_25 _ _ ih.1, ?_⟩
      show (sm2_update (t n) (reviewRun t 4 c n) 4).repetitions = n + 1
      rw [sm2_four_reps, ih.2]

end SRS

namespace SRS

/-- C1 counterexample: on a freshly added card the FIRST quality-4
review leaves `interval_hours = 4` (the ladder entry indexed by the
pre-review repetitions count 0), not 24 as the claim's sequence
`[24, 72, 168, 336, 720]` asserts. -/
theorem first_review_interval_is_four :
    (sm2_update 0 fresh0 4).interval_hours = 4 ∧
    (sm2_update 0 fresh0 4).interval_hours ≠ 24 := by
  have h : (sm2_update 0 fresh0 4).interval_hours = 4 :=
    (sm2_four_young 0 fresh0 (by decide)).trans (by decide)
  exact ⟨h, by rw [h]; decide⟩

/-- C1 (amended): on a freshly added card, six consecutive quality-4
reviews produce `interval_hours` values `[4, 24, 72, 168, 336, 720]` in
order, and a seventh quality-4 review produces
`interval_hours = round(720 * ease_factor_after_7th_review)`, which is
1800 since the ease factor stays 2.5 under quality-4 reviews. -/
theorem interval_ladder_progression (t : ℕ → ℚ) (now : ℚ)
    (newId fen pm bm cls ex : String) (cp : ℤ) (mot : Option String) :
    (reviewRun t 4 (add_card now newId fen pm bm cp cls mot ex) 1).interval_hours = 4 ∧
    (reviewRun t 4 (add_card now newId fen pm bm cp cls mot ex) 2).interval_hours = 24 ∧
    (reviewRun t 4 (add_card now newId fen pm bm cp cls mot ex) 3).interval_hours = 72 ∧
    (reviewRun t 4 (add_card now newId fen pm bm cp cls mot ex) 4).interval_hours = 168 ∧
    (reviewRun t 4 (add_card now newId fen pm bm cp cls mot ex) 5).interval_hours = 336 ∧
    (reviewRun t 4 (add_card now newId fen pm bm cp cls mot ex) 6).interval_hours = 720 ∧
    (reviewRun t 4 (add_card now newId fen pm bm cp cls mot ex) 7).interval_hours
      = roundHalfEven (720 * (reviewRun t 4 (add_card now newId fen pm bm cp cls mot ex) 7).ease_factor) ∧
    (reviewRun t 4 (add_card now newId fen pm bm cp cls mot ex) 7).interval_hours = 1800 := by
  set fresh := add_card now newId fen pm bm cp cls mot ex with hfresh
  have hf := q4_run_facts t fresh rfl rfl
  have step : ∀ n, n < 6 →
      (reviewRun t 4 fresh (n + 1)).interval_hours = _INTERVAL_HOURS.getD n 0 := by
    intro n hn
    show (sm2_update (t n) (reviewRun t 4 fresh n) 4).interval_hours = _
    rw [sm2_four_young _ _ (by rw [(hf n).2]; exact hn), (hf n).2]
  have i6 : (reviewRun t 4 fresh 6).interval_hours = 720 :=
    (step 5 (by norm_num)).trans (by decide)
  have hd : (5/2 : ℚ) + (1/10 - (5 - ((4 : ℤ) : ℚ)) * (2/25 + (5 - ((4 : ℤ) : ℚ)) * (1/50)))
      = 5/2 := by
    push_cast
    norm_num
  have i7 : (reviewRun t 4 fresh 7).interval_hours = 1800 := by
    show (sm2_update (t 6) (reviewRun t 4 fresh 6) 4).interval_hours = 1800
    rw [sm2_four_mature _ _ (le_of_eq (hf 6).2.symm), (hf 6).1, i6]
    rw [hd, max_eq_right (by norm_num : (13/10 : ℚ) ≤ 5/2)]
    have h720 : (((720 : ℤ) : ℚ)) * (5/2) = ((1800 : ℤ) : ℚ) := by norm_num
    rw [h720, roundHalfEven_intCast]
  have e7 : roundHalfEven (720 * (reviewRun t 4 fresh 7).ease_factor) = 1800 := by
    rw [(hf 7).1]
    have h720 : (720 : ℚ) * (5/2) = ((1800 : ℤ) : ℚ) := by norm_num
    rw [h720, roundHalfEven_intCast]
  exact ⟨(step 0 (by norm_num)).trans (by decide),
    (step 1 (by norm_num)).trans (by decide),
    (step 2 (by norm_num)).trans (by decide),
    (step 3 (by norm_num)).trans (by decide),
    (step 4 (by norm_num)).trans (by decide),
    i6, i7.trans e7.symm, i7⟩

end SRS

namespace SRS

/-- C7: every card reachable by `add_card` followed by successful
reviews has `ease_factor ≥ 1.3`; a fresh card starts at 2.5, and any run
of 15 or more consecutive quality-0 reviews leaves the ease factor at
exactly 1.3 and never below it. -/
theorem ease_factor_floor (c : Card) (hc : Reachable c) (t : ℕ → ℚ) (n : ℕ)
    (hn : 15 ≤ n) (now : ℚ) (newId fen pm bm cls ex : String) (cp : ℤ)
    (mot : Option String) :
    13/10 ≤ c.ease_factor ∧
    (add_card now newId fen pm bm cp cls mot ex).ease_factor = 5/2 ∧
    (reviewRun t 0 (add_card now newId fen pm bm cp cls mot ex) n).ease_factor = 13/10 :=
  ⟨reachable_ease_ge hc, rfl, zeroRun_ease_from_two t _ rfl n (by omega)⟩

theorem ease_factor_floor_witness :
    Reachable fresh0 ∧ 15 ≤ 15 ∧
    (13/10 ≤ fresh0.ease_factor ∧
     (add_card 0 "card-0" "fen0" "Nf3" "d4" 30 "mistake" none "").ease_factor = 5/2 ∧
     (reviewRun (fun _ => 0) 0
        (add_card 0 "card-0" "fen0" "Nf3" "d4" 30 "mistake" none "") 15).ease_factor = 13/10) :=
  ⟨Reachable.add 0 "card-0" "fen0" "Nf3" "d4" 30 "mistake" none "",
   le_refl 15,
   ease_factor_floor fresh0
     (Reachable.add 0 "card-0" "fen0" "Nf3" "d4" 30 "mistake" none "")
     (fun _ => 0) 15 (le_refl 15) 0 "card-0" "fen0" "Nf3" "d4" "mistake" "" 30 none⟩

/-- C10: for every reachable card, `interval_hours` is a positive
integer at least 4; `add_card` sets it to 4, a failed review resets it
to 4, every fixed ladder value is at least 4, and the mature-phase value
`round(prev * ef)` with `ef ≥ 1.3` and `prev ≥ 4` is at least 5. -/
theorem interval_hours_invariant (c : Card) (hc : Reachable c) :
    (4 ≤ c.interval_hours ∧ 0 < c.interval_hours) ∧
    (∀ (now : ℚ) (newId fen pm bm : String) (cp : ℤ) (cls : String)
        (mot : Option String) (ex : String),
      (add_card now newId fen pm bm cp cls mot ex).interval_hours = 4) ∧
    (∀ (now : ℚ) (d : Card) (q : ℤ), q < 3 → (sm2_update now d q).interval_hours = 4) ∧
    (∀ h ∈ _INTERVAL_HOURS, 4 ≤ h) ∧
    (∀ (prev : ℤ) (ef : ℚ), 4 ≤ prev → 13/10 ≤ ef →
      5 ≤ roundHalfEven ((prev : ℚ) * ef)) := by
  refine ⟨⟨reachable_interval_ge hc, lt_of_lt_of_le (by norm_num) (reachable_interval_ge hc)⟩,
    ?_, ?_, ?_, ?_⟩
  · intro now newId fen pm bm cp cls mot ex
    rfl
  · intro now d q hq
    exact (sm2_fail_reset now d q hq).1
  · decide
  · intro prev ef h1 h2
    exact mature_interval_ge h1 h2

theorem interval_hours_invariant_witness :
    Reachable fresh0 ∧ 4 ≤ fresh0.interval_hours ∧ 0 < fresh0.interval_hours :=
  ⟨Reachable.add 0 "card-0" "fen0" "Nf3" "d4" 30 "mistake" none "",
   (interval_hours_invariant fresh0
     (Reachable.add 0 "card-0" "fen0" "Nf3" "d4" 30 "mistake" none "")).1.1,
   (interval_hours_invariant fresh0
     (Reachable.add 0 "card-0" "fen0" "Nf3" "d4" 30 "mistake" none "")).1.2⟩

theorem sm2_update_exact_witness :
    Reachable fresh0 ∧ (0 : ℤ) ≤ 3 ∧ (3 : ℤ) ≤ 5 ∧
    Sm2SpecClaim 0 fresh0 3 (sm2_update 0 fresh0 3) :=
  ⟨Reachable.add 0 "card-0" "fen0" "Nf3" "d4" 30 "mistake" none "",
   by norm_num, by norm_num,
   sm2_update_exact 0 fresh0 3
     (Reachable.add 0 "card-0" "fen0" "Nf3" "d4" 30 "mistake" none "")
     (by norm_num) (by norm_num)⟩

end SRS

namespace SRS

/-- C6: `review_card` fails with the `InvalidArgument` kind whenever the
quality is outside `[0, 5]`, fails with the `NotFound` kind whenever no
stored card carries the given id (and the quality is valid; the quality
check runs first), and on any failure leaves the card collection
completely unchanged. -/
theorem review_card_failure_semantics (now : ℚ) (cards : List Card)
    (card_id : String) (q : ℤ) :
    ((q < 0 ∨ 5 < q) →
      review_card now cards card_id q = (.error .invalidArgument, cards)) ∧
    (0 ≤ q → q ≤ 5 → (∀ c ∈ cards, c.id ≠ card_id) →
      review_card now cards card_id q = (.error .notFound, cards)) ∧
    (∀ e : SrsError, (review_card now cards card_id q).1 = .error e →
      (review_card now cards card_id q).2 = cards) := by
  refine ⟨?_, ?_, ?_⟩
  · intro h
    simp [review_card, h]
  · intro h0 h5 hnone
    have hq : ¬(q < 0 ∨ 5 < q) := by omega
    have hfind : find_card cards card_id = none := by
      rw [find_card, List.find?_eq_none]
      intro x hx
      simpa using hnone x hx
    simp [review_card, hq, hfind]
  · intro e he
    by_cases h1 : q < 0 ∨ 5 < q
    · simp [review_card, h1]
    · cases hfind : find_card cards card_id with
      | none => simp [review_card, h1, hfind]
      | some c =>
          exfalso
          simp [review_card, h1, hfind] at he

theorem review_card_failure_semantics_witness :
    ((9 : ℤ) < 0 ∨ 5 < (9 : ℤ)) ∧
    review_card 0 [fresh0] "missing" 9 = (.error .invalidArgument, [fresh0]) ∧
    review_card 0 [fresh0] "missing" 3 = (.error .notFound, [fresh0]) :=
  ⟨Or.inr (by norm_num),
   (review_card_failure_semantics 0 [fresh0] "missing" 9).1 (Or.inr (by norm_num)),
   (review_card_failure_semantics 0 [fresh0] "missing" 3).2.1 (by norm_num) (by norm_num)
     (by
       intro c hc
       rw [List.mem_singleton] at hc
       subst hc
       decide)⟩

/-- C8: `get_due_cards` returns exactly the stored cards whose
`next_review` is at or before `now` (as a permutation of the filtered
list and membership-wise), sorted ascending by `next_review`, and every
card with `next_review` strictly after `now` is excluded. -/
theorem get_due_cards_exact (now : ℚ) (cards : List Card) :
    (∀ c, c ∈ get_due_cards now cards ↔ c ∈ cards ∧ c.next_review ≤ now) ∧
    (get_due_cards now cards).Perm
      (cards.filter (fun c => decide (c.next_review ≤ now))) ∧
    (get_due_cards now cards).Pairwise (fun a b => a.next_review ≤ b.next_review) ∧
    (∀ c ∈ cards, now < c.next_review → c ∉ get_due_cards now cards) := by
  have hmem : ∀ c, c ∈ get_due_cards now cards ↔ c ∈ cards ∧ c.next_review ≤ now := by
    intro c
    rw [get_due_cards, List.mem_mergeSort, List.mem_filter]
    simp
  refine ⟨hmem, List.mergeSort_perm _ _, ?_, ?_⟩
  · have hs := @List.sorted_mergeSort Card
      (fun a b : Card => decide (a.next_review ≤ b.next_review))
      (fun a b c hab hbc => by
        simp only [decide_eq_true_eq] at hab hbc ⊢
        exact le_trans hab hbc)
      (fun a b => by
        simp only [Bool.or_eq_true, decide_eq_true_eq]
        exact le_total _ _)
      (cards.filter (fun c => decide (c.next_review ≤ now)))
    exact hs.imp (fun h => by simpa using h)
  · intro c hc hlt hmemc
    have := ((hmem c).mp hmemc).2
    linarith

/-- C9: when the stored file's content fails to parse as a JSON array,
construction does not fail: the manager starts with zero cards
(`get_stats` reports total 0 and `get_due_cards` is empty) and the
malformed content is retained in the backup. -/
theorem corrupt_store_recovery (text : String) (parse : String → Option (List Card))
    (now : ℚ) (h : parse text = none) :
    (load_cards (some text) parse).cards = [] ∧
    (get_stats now (load_cards (some text) parse).cards).total = 0 ∧
    get_due_cards now (load_cards (some text) parse).cards = [] ∧
    (load_cards (some text) parse).backup = some text := by
  simp [load_cards, h, get_stats, get_due_cards]

theorem corrupt_store_recovery_witness :
    ((fun _ : String => (none : Option (List Card))) "not json" = none) ∧
    ((load_cards (some "not json") (fun _ => none)).cards = [] ∧
     (get_stats 0 (load_cards (some "not json") (fun _ => none)).cards).total = 0 ∧
     get_due_cards 0 (load_cards (some "not json") (fun _ => none)).cards = [] ∧
     (load_cards (some "not json") (fun _ => none)).backup = some "not json") :=
  ⟨rfl, corrupt_store_recovery "not json" (fun _ => none) 0 rfl⟩

end SRS

namespace Motif

theorem mem_detectAllMotifs_backRank (b ba : Board) (m : Move) :
    "back_rank_mate" ∈ detectAllMotifs b ba m ↔
      (detectCheckmate ba = true ∧ detectBackRankMate ba = true) := by
  unfold detectAllMotifs
  split_ifs <;> simp_all

theorem mem_detectAllMotifs_checkmate (b ba : Board) (m : Move) :
    "checkmate" ∈ detectAllMotifs b ba m ↔
      (detectCheckmate ba = true ∧ detectBackRankMate ba = false) := by
  unfold detectAllMotifs
  split_ifs <;> simp_all

theorem mem_detectAllMotifs_discovered (b ba : Board) (m : Move) :
    "discovered_attack" ∈ detectAllMotifs b ba m ↔
      detectDiscoveredAttack b ba m = true := by
  unfold detectAllMotifs
  split_ifs <;> simp_all

theorem pawnAny_iff (ba : Board) (col : Color) (er kf : ℕ) (hkf : kf ≤ 7) :
    (∃ x, (kf ≤ x + 1 ∧ x < kf - 1 + (8 ⊓ (kf + 2) - (kf - 1))) ∧
      (match ba.pieceAt (mkSquare x er) with
        | some piece => piece.color == col && piece.pieceType == PieceType.pawn
        | none => false) = true)
    ↔ ∃ f ≤ 7, kf ≤ f + 1 ∧ f ≤ kf + 1 ∧
        ba.pieceAt (mkSquare f er) = some ⟨PieceType.pawn, col⟩ := by
  constructor
  · rintro ⟨x, ⟨h1, h2⟩, hp⟩
    have hx7 : x ≤ 7 := by omega
    have hx1 : x ≤ kf + 1 := by omega
    refine ⟨x, hx7, h1, hx1, ?_⟩
    cases hpp : ba.pieceAt (mkSquare x er) with
    | none => rw [hpp] at hp; exact absurd hp (by simp)
    | some p =>
        rw [hpp] at hp
        simp only [Bool.and_eq_true, beq_iff_eq] at hp
        cases p
        simp_all
  · rintro ⟨f, h7, h1, h2, hp⟩
    refine ⟨f, ⟨h1, by omega⟩, ?_⟩
    rw [hp]
    simp

theorem detectBackRankMate_iff (ba : Board) (hmate : ba.isCheckmate = true) :
    detectBackRankMate ba = true ↔ BackRankSpec ba := by
  unfold detectBackRankMate BackRankSpec
  rw [hmate]
  dsimp only []
  cases hking : ba.kingSq ba.turn with
  | none => simp
  | some k =>
      have hkf : squareFile k ≤ 7 := Nat.le_of_lt_succ (Nat.mod_lt _ (by norm_num))
      cases hturn : ba.turn with
      | white =>
          simp [backRankOf, escapeRankOf]
          intro h0 x hx hxr
          rw [h0]
          simpa using pawnAny_iff ba Color.white 1 (squareFile k) hkf
      | black =>
          simp [backRankOf, escapeRankOf]
          intro h0 x hx hxr
          rw [h0]
          simpa using pawnAny_iff ba Color.black 6 (squareFile k) hkf

/-- C3: for a checkmating move, `detect_all_motifs` emits
`back_rank_mate` exactly when the spec's three back-rank conditions
hold (king on its back rank, a checker on that rank, an own pawn on the
escape rank within one file of the king), emits plain `checkmate`
exactly otherwise, and never emits both labels. -/
theorem back_rank_mate_classification (b bAfter : Board) (m : Move)
    (hmate : bAfter.isCheckmate = true) :
    ("back_rank_mate" ∈ detectAllMotifs b bAfter m ↔ BackRankSpec bAfter) ∧
    ("checkmate" ∈ detectAllMotifs b bAfter m ↔ ¬ BackRankSpec bAfter) ∧
    ¬("back_rank_mate" ∈ detectAllMotifs b bAfter m ∧
      "checkmate" ∈ detectAllMotifs b bAfter m) := by
  have hck : detectCheckmate bAfter = true := hmate
  have hbr := detectBackRankMate_iff bAfter hmate
  have h1 : "back_rank_mate" ∈ detectAllMotifs b bAfter m ↔ BackRankSpec bAfter := by
    rw [mem_detectAllMotifs_backRank]
    rw [← hbr]
    simp [hck]
  have h2 : "checkmate" ∈ detectAllMotifs b bAfter m ↔ ¬ BackRankSpec bAfter := by
    rw [mem_detectAllMotifs_checkmate]
    rw [← hbr]
    simp [hck]
  refine ⟨h1, h2, ?_⟩
  rintro ⟨ha, hb⟩
  exact (h2.mp hb) (h1.mp ha)

theorem back_rank_mate_classification_witness :
    mateBoard.isCheckmate = true ∧
    (("back_rank_mate" ∈ detectAllMotifs mateBoard mateBoard mateMove ↔
        BackRankSpec mateBoard) ∧
     ("checkmate" ∈ detectAllMotifs mateBoard mateBoard mateMove ↔
        ¬ BackRankSpec mateBoard) ∧
     ¬("back_rank_mate" ∈ detectAllMotifs mateBoard mateBoard mateMove ∧
       "checkmate" ∈ detectAllMotifs mateBoard mateBoard mateMove)) :=
  ⟨rfl, back_rank_mate_classification mateBoard mateBoard mateMove rfl⟩

end Motif

namespace Motif

/-- C4: `detect_all_motifs` always returns a duplicate-free subsequence
of the fixed label order (with `back_rank_mate` and `checkmate` never
both present), and `detect_motif` is exactly its first element, `none`
when it is empty. -/
theorem detect_all_motifs_shape (b bAfter : Board) (m : Move) :
    (detectAllMotifs b bAfter m).Sublist ["back_rank_mate", "checkmate", "double_check",
      "discovered_attack", "fork", "pin", "skewer", "promotion"] ∧
    (detectAllMotifs b bAfter m).Nodup ∧
    ¬("back_rank_mate" ∈ detectAllMotifs b bAfter m ∧
      "checkmate" ∈ detectAllMotifs b bAfter m) ∧
    detectMotif b bAfter m = (detectAllMotifs b bAfter m).head? := by
  refine ⟨?_, ?_, ?_, rfl⟩
  · unfold detectAllMotifs
    split_ifs <;> decide
  · unfold detectAllMotifs
    split_ifs <;> decide
  · unfold detectAllMotifs
    split_ifs <;> decide

end Motif

namespace Motif

theorem detectDiscoveredAttack_iff (b ba : Board) (m : Move) (p : Piece)
    (hmv : b.pieceAt m.fromSq = some p) :
    detectDiscoveredAttack b ba m = true ↔ DiscoveredAttackSpec b ba m p.color := by
  unfold detectDiscoveredAttack DiscoveredAttackSpec
  rw [hmv]
  dsimp only []
  rw [List.any_eq_true]
  constructor
  · rintro ⟨sq, hsq, hcond⟩
    rw [List.mem_range] at hsq
    cases hpp : ba.pieceAt sq with
    | none => rw [hpp] at hcond; exact absurd hcond (by simp)
    | some q =>
        rw [hpp] at hcond
        simp only [Bool.and_eq_true, beq_iff_eq, bne_iff_ne, ne_eq] at hcond
        obtain ⟨⟨⟨hqc, hne⟩, hsl⟩, hemp, hany⟩ := hcond
        rw [List.any_eq_true] at hany
        obtain ⟨a, hamem, hvic⟩ := hany
        rw [List.mem_filter] at hamem
        obtain ⟨haf, hnab⟩ := hamem
        have hnab' : a ∉ b.attacks sq := by
          simpa using hnab
        cases hv : ba.pieceAt a with
        | none => rw [hv] at hvic; exact absurd hvic (by simp)
        | some v =>
            rw [hv] at hvic
            simp only [Bool.and_eq_true, beq_iff_eq, decide_eq_true_eq] at hvic
            exact ⟨sq, hsq, hne, ⟨q, hpp, hqc, hsl⟩, a, haf, hnab', v, hv, hvic.1, hvic.2⟩
  · rintro ⟨sq, hsq, hne, ⟨q, hpp, hqc, hsl⟩, a, haf, hnab, v, hv, hvc, hval⟩
    refine ⟨sq, by rw [List.mem_range]; exact hsq, ?_⟩
    rw [hpp]
    simp only [Bool.and_eq_true, beq_iff_eq, bne_iff_ne, ne_eq]
    refine ⟨⟨⟨hqc, hne⟩, hsl⟩, ?_, ?_⟩
    · have hmem : a ∈ (ba.attacks sq).filter (fun x => !(b.attacks sq).contains x) := by
        rw [List.mem_filter]
        exact ⟨haf, by simpa using hnab⟩
      simp only [Bool.not_eq_true', List.isEmpty_eq_false_iff_exists_mem]
      exact ⟨a, hmem⟩
    · rw [List.any_eq_true]
      refine ⟨a, ?_, ?_⟩
      · rw [List.mem_filter]
        exact ⟨haf, by simpa using hnab⟩
      · rw [hv]
        simp only [Bool.and_eq_true, beq_iff_eq, decide_eq_true_eq]
        exact ⟨hvc, hval⟩

/-- C5: `detect_all_motifs` includes `discovered_attack` exactly when
some friendly sliding piece other than the moved one gains at least one
newly attacked square (attack set after the move minus attack set
before non-empty) and some newly attacked square holds an enemy piece
of value at least 3 -- with the moved piece's own attacks excluded. -/
theorem discovered_attack_exact (b bAfter : Board) (m : Move) (p : Piece)
    (hmv : b.pieceAt m.fromSq = some p) :
    "discovered_attack" ∈ detectAllMotifs b bAfter m ↔
      DiscoveredAttackSpec b bAfter m p.color := by
  rw [mem_detectAllMotifs_discovered]
  exact detectDiscoveredAttack_iff b bAfter m p hmv

theorem discovered_attack_exact_witness :
    discBefore.pieceAt discMove.fromSq = some ⟨PieceType.bishop, Color.white⟩ ∧
    ("discovered_attack" ∈ detectAllMotifs discBefore discAfter discMove ↔
      DiscoveredAttackSpec discBefore discAfter discMove
        (Piece.mk PieceType.bishop Color.white).color) :=
  ⟨rfl, discovered_attack_exact discBefore discAfter discMove
    ⟨PieceType.bishop, Color.white⟩ rfl⟩

end Motif
